import Mathlib

/-!
Verification development for `project_stats.py` (xi/project-stats).

The claim-merging data model (`Claims`, `ClaimsDict`) and the fetch
orchestration (`get_source`, `get_project`) are embedded shallowly:

* Python values handled by the model are the typed scalars of the data
  model (§3 of the design document): `None`, strings, integers and
  booleans.  Python `==` (where `0 == False` and `1 == True`) is `pyEq`,
  truthiness is `truthy`, `str(...)` is `pyStr`, and `<` (which raises
  `TypeError` on incomparable types) is `pyLt : Value → Value → Option Bool`
  with `none` standing for the raised `TypeError`.
* Python dicts are insertion-ordered association lists; `dict.update`
  overwrites existing keys in place and appends new ones.
* Raising `KeyError` is modelled with `Except String`, the payload being
  the offending key.  `ClaimsDict.update` checks every key before any
  mutation, so an erroring update leaves the object unchanged
  (`runUpdate`).
* The external source adapters and the credential lookup are outside the
  core (§1): the orchestrator is parametrised by
  `fetch : String → String → Except String (List (String × Value))`
  mapping a source kind and identifier to an attribute mapping or a
  failure message.  `asyncio.gather` over the per-source coroutines is
  modelled as a fold over `SOURCES` in declaration order.
* `logging.error` in `get_source` is modelled by returning a list of
  structured `LogEntry` records carrying exactly the data interpolated
  into the message: the source kind, the source identifier and the error.
-/

namespace ProjectStats

/-- Typed scalar values of the data model: Python `None`, `str`, `int`, `bool`. -/
inductive Value where
  | vnone : Value
  | vstr : String → Value
  | vint : Int → Value
  | vbool : Bool → Value
deriving DecidableEq

/-- Python truthiness `bool(v)`: `None`, `""`, `0` and `False` are falsy. -/
def truthy : Value → Bool
  | .vnone => false
  | .vstr s => !(s == "")
  | .vint n => !(n == 0)
  | .vbool b => b

/-- Python `==` on the modelled scalars: numbers and booleans compare by
numeric value (`0 == False`, `1 == True`), strings by content, `None` only
to `None`; cross-kind comparisons are `False`. -/
def pyEq : Value → Value → Bool
  | .vnone, .vnone => true
  | .vstr s, .vstr t => s == t
  | .vint m, .vint n => m == n
  | .vint m, .vbool b => m == (if b then (1 : Int) else 0)
  | .vbool b, .vint n => (if b then (1 : Int) else 0) == n
  | .vbool a, .vbool b => a == b
  | _, _ => false

/-- Numeric view used by Python `<`: ints are themselves, booleans are 0/1. -/
def asNum : Value → Option Int
  | .vint n => some n
  | .vbool b => some (if b then 1 else 0)
  | _ => none

/-- Python `<` on the modelled scalars: defined between two strings and
between two numbers (int/bool); every other pair raises `TypeError`,
modelled as `none`. -/
def pyLt (x y : Value) : Option Bool :=
  match x, y with
  | .vstr s, .vstr t => some (decide (s < t))
  | _, _ =>
    match asNum x, asNum y with
    | some m, some n => some (decide (m < n))
    | _, _ => none

/-- Python `str(v)` for the modelled scalars. -/
def pyStr : Value → String
  | .vnone => "None"
  | .vstr s => s
  | .vint n => toString n
  | .vbool b => if b then "True" else "False"

/-- Python list `<` on value lists: skip leading pairwise-`==` elements,
then decide by `<` on the first mismatch (possibly a `TypeError`); if one
list is a prefix of the other, the shorter is smaller. -/
def pyListLt : List Value → List Value → Option Bool
  | [], [] => some false
  | [], _ :: _ => some true
  | _ :: _, [] => some false
  | x :: xs, y :: ys => if pyEq x y then pyListLt xs ys else pyLt x y

/-- Python list `==` on value lists: same length and pairwise `pyEq`. -/
def pyListEq : List Value → List Value → Bool
  | [], [] => true
  | x :: xs, y :: ys => pyEq x y && pyListEq xs ys
  | _, _ => false

/-- The seven known source kinds, in declaration order (`SOURCES`). -/
def SOURCES : List String := ["github", "gitlab", "local", "pypi", "bower", "npm", "travis"]

/-- The fixed attribute-key enumeration (`KEYS`), with the source's exact
spellings. -/
def KEYS : List String := [
  "name",
  "description",
  "version",
  "homepage",
  "created",
  "updated",
  "license",
  "language",
  "tests",
  "commit_count",
  "file_count",
  "unstaged_changes",
  "uncommited_changes",
  "up_to_date",
  "contributors",
  "downloads",
  "open_issues",
  "open_pull_requests",
  "forks_count",
  "stargazers_count",
  "subscribers_count",
  "watchers_count",
  "cheesecake_index"]

/-- One attribute's claims (`Claims`): the ordered list `_list` of
`(value, sources)` entries. -/
structure Claims where
  _list : List (Value × List String)
deriving DecidableEq

/-- The scan of `Claims.add`: `_index` finds the first entry whose stored
value is Python-`==` to the new value and `source` is appended to its
source list; on `KeyError` a fresh entry `(value, [source])` is appended
at the end. -/
def addEntry (v : Value) (source : String) : List (Value × List String) → List (Value × List String)
  | [] => [(v, [source])]
  | e :: rest =>
    if pyEq v e.1 then (e.1, e.2 ++ [source]) :: rest
    else e :: addEntry v source rest

/-- `Claims.add`: a no-op when `not value and value != 0` (falsy values
other than the number zero and `False` are never recorded), otherwise the
`addEntry` scan. -/
def Claims.add (c : Claims) (value : Value) (source : String) : Claims :=
  if !truthy value && !pyEq value (.vint 0) then c
  else ⟨addEntry value source c._list⟩

/-- `Claims.values`: the ordered distinct values. -/
def Claims.values (c : Claims) : List Value := c._list.map Prod.fst

/-- `Claims.format`: every entry rendered as `str(value)`, suffixed when
`show_sources` with the comma-joined sources in parentheses; entries
joined by `"; "`. -/
def Claims.format (c : Claims) (show_sources : Bool) : String :=
  String.intercalate "; " (c._list.map (fun e =>
    pyStr e.1 ++ (if show_sources then " (" ++ String.intercalate ", " e.2 ++ ")" else "")))

/-- `Claims.__lt__`: `self.values() < other.values()` as Python lists
(`none` when the comparison raises `TypeError`). -/
def claimsLt (a b : Claims) : Option Bool := pyListLt a.values b.values

/-- Association-list lookup, modelling Python `d[k]`/`k in d` on
insertion-ordered dicts. -/
def alookup {α : Type} (k : String) : List (String × α) → Option α
  | [] => none
  | e :: rest => if e.1 = k then some e.2 else alookup k rest

/-- Python `d[k] = v` on an insertion-ordered dict: overwrite in place if
present, else append. -/
def dictSet (d : List (String × Value)) (k : String) (v : Value) : List (String × Value) :=
  match d with
  | [] => [(k, v)]
  | e :: rest => if e.1 = k then (k, v) :: rest else e :: dictSet rest k v

/-- Python `d.update(data)`: set each pair of `data` in order. -/
def dictUpdate (d data : List (String × Value)) : List (String × Value) :=
  data.foldl (fun acc e => dictSet acc e.1 e.2) d

/-- The validation loop of `ClaimsDict.update`: the first key of `data`
outside `keys` (the `KeyError` payload), if any. -/
def firstBadKey (keys : List String) : List (String × Value) → Option String
  | [] => none
  | e :: rest => if keys.contains e.1 then firstBadKey keys rest else some e.1

/-- A Claim Set (`ClaimsDict`): the schema `_keys`, the short-report
cutoff `_short`, and `_data` mapping each source name to its bucket of
raw reported values, in source-registration order. -/
structure ClaimsDict where
  _keys : List String
  _short : Nat
  _data : List (String × List (String × Value))
deriving DecidableEq

/-- Replace `source`'s bucket by its `dict.update` with `data`
(`self._data[source].update(data)`). -/
def mapBucket (d : List (String × List (String × Value))) (source : String)
    (data : List (String × Value)) : List (String × List (String × Value)) :=
  d.map (fun e => if e.1 = source then (e.1, dictUpdate e.2 data) else e)

/-- The mutation step of `ClaimsDict.update`, after validation: register
`source` with an empty bucket if absent, then merge `data` into its
bucket. -/
def applyUpdate (d : List (String × List (String × Value))) (data : List (String × Value))
    (source : String) : List (String × List (String × Value)) :=
  mapBucket (if (alookup source d).isSome then d else d ++ [(source, [])]) source data

/-- `ClaimsDict.update`: raise `KeyError` on the first key outside the
schema — before any mutation — otherwise merge `data` into `source`'s
bucket. -/
def ClaimsDict.update (cd : ClaimsDict) (data : List (String × Value)) (source : String) :
    Except String ClaimsDict :=
  match firstBadKey cd._keys data with
  | some k => .error k
  | none => .ok { cd with _data := applyUpdate cd._data data source }

/-- Run `ClaimsDict.update` as the statement it is in the source: the
`KeyError` is raised before any mutation, so on error the Claim Set is
unchanged. -/
def runUpdate (cd : ClaimsDict) (data : List (String × Value)) (source : String) : ClaimsDict :=
  match cd.update data source with
  | .ok cd2 => cd2
  | .error _ => cd

/-- `ClaimsDict.__getitem__`: `KeyError` on a key outside the schema,
otherwise a fresh Claim built by scanning every source bucket that
defines `key`, in registration order. -/
def ClaimsDict.getItem (cd : ClaimsDict) (key : String) : Except String Claims :=
  if cd._keys.contains key then
    .ok (cd._data.foldl (fun c e =>
      match alookup key e.2 with
      | some v => c.add v e.1
      | none => c) ⟨[]⟩)
  else .error key

/-- `ClaimsDict.get`: `__getitem__`, with the `KeyError` turned into the
default. -/
def ClaimsDict.get (cd : ClaimsDict) (key : String) (default : Option Claims) : Option Claims :=
  match cd.getItem key with
  | .ok c => some c
  | .error _ => default

/-- `ClaimsDict.format`: one `key: formatted-claim` line per non-empty
attribute, in schema order (first `_short` keys when `short`), each
prefixed by `indent` spaces, joined by newlines. -/
def ClaimsDict.format (cd : ClaimsDict) (short : Bool) (indent : Nat) (show_sources : Bool) :
    String :=
  let keys := if short then cd._keys.take cd._short else cd._keys
  String.intercalate "\n" (keys.filterMap (fun key =>
    match cd.get key none with
    | some c =>
      let fv := c.format show_sources
      if fv == "" then none else some ("".pushn ' ' indent ++ key ++ ": " ++ fv)
    | none => none))

/-- A fresh Claim Set as built by `get_project`: `ClaimsDict(KEYS)` with
the default short cutoff 9. -/
def emptyClaimsDict : ClaimsDict := ⟨KEYS, 9, []⟩

/-- One record logged by `logging.error` in `get_source`: the data
interpolated into the message are the source kind (`key` in the source),
the source-specific identifier (`source`), and the error. -/
structure LogEntry where
  kind : String
  ident : String
  err : String
deriving DecidableEq

/-- `get_source`: run the adapter for one source kind; on success merge
its mapping into the Claim Set, on any failure (of the adapter or of
`claims.update` itself, both inside the `try`) log and leave the Claim
Set untouched. -/
def get_source (fetch : String → String → Except String (List (String × Value)))
    (kind ident : String) (claims : ClaimsDict) : ClaimsDict × List LogEntry :=
  match fetch kind ident with
  | .ok data =>
    match claims.update data kind with
    | .ok cd => (cd, [])
    | .error k => (claims, [⟨kind, ident, k⟩])
  | .error e => (claims, [⟨kind, ident, e⟩])

/-- The per-project loop of `get_project`: for each known source kind the
project configures, run `get_source`, accumulating the Claim Set and the
log (`asyncio.gather` over the per-source coroutines, in `SOURCES`
order). -/
def goSources (fetch : String → String → Except String (List (String × Value)))
    (project : List (String × String)) :
    List String → ClaimsDict × List LogEntry → ClaimsDict × List LogEntry
  | [], acc => acc
  | s :: rest, acc =>
    match alookup s project with
    | some ident =>
      let r := get_source fetch s ident acc.1
      goSources fetch project rest (r.1, acc.2 ++ r.2)
    | none => goSources fetch project rest acc

/-- `get_project`: fold all configured known sources into a fresh
`ClaimsDict(KEYS)`; always returns a Claim Set.  The `key` parameter is
the project key, as in the source's signature. -/
def get_project (fetch : String → String → Except String (List (String × Value)))
    (key : String) (project : List (String × String)) : ClaimsDict × List LogEntry :=
  goSources fetch project SOURCES (emptyClaimsDict, [])

/-- The comparison `main` uses when sorting by `--sort KEY`:
`projects[k1][key] < projects[k2][key]` via `Claims.__lt__`; `none` when
either lookup raises or the value comparison raises. -/
def sortKeyLt (cd1 cd2 : ClaimsDict) (key : String) : Option Bool :=
  match cd1.getItem key, cd2.getItem key with
  | .ok a, .ok b => claimsLt a b
  | _, _ => none

/-- Whether `Claims.add` records a value: truthy, or Python-`==` to 0
(i.e. the number zero or `False`). -/
def recorded (v : Value) : Bool := truthy v || pyEq v (.vint 0)

/-- Fold a whole call sequence of `add value source` into a fresh Claim. -/
def applyAdds (calls : List (Value × String)) : Claims :=
  calls.foldl (fun c e => c.add e.1 e.2) ⟨[]⟩

/-- Modelled from the spec (§3/§8): the distinct recorded values of a call
sequence in first-seen order, distinctness taken up to Python `==`. -/
def specValues (calls : List (Value × String)) : List Value :=
  calls.foldl (fun acc e =>
    if recorded e.1 && !(acc.any (fun w => pyEq e.1 w)) then acc ++ [e.1] else acc) []

/-- Modelled from the spec (§4.1): each distinct value rendered as its
textual form suffixed by its contributing sources in parenthesized,
comma-joined form, distinct values joined by `"; "`. -/
def specFormatClaim (entries : List (Value × List String)) : String :=
  String.intercalate "; " (entries.map (fun e =>
    pyStr e.1 ++ " (" ++ String.intercalate ", " e.2 ++ ")"))

/-- The per-key contributions of a Claim Set: the `(source, raw value)`
pairs its buckets hold for `key`, in registration order. -/
def contributions (cd : ClaimsDict) (key : String) : List (String × Value) :=
  cd._data.filterMap (fun e => (alookup key e.2).map (fun v => (e.1, v)))

/-! ### Facts about `Claims.add` -/

theorem pyEq_refl (v : Value) : pyEq v v = true := by
  cases v <;> simp [pyEq]

theorem addEntry_map_fst (v : Value) (s : String) (l : List (Value × List String)) :
    (addEntry v s l).map Prod.fst =
      if l.any (fun e => pyEq v e.1) then l.map Prod.fst else l.map Prod.fst ++ [v] := by
  induction l with
  | nil => simp [addEntry]
  | cons e rest ih =>
    by_cases h : pyEq v e.1 = true
    · simp [addEntry, h]
    · have h2 : pyEq v e.1 = false := Bool.eq_false_iff.2 h
      simp only [addEntry, h2, Bool.false_eq_true, if_false, List.any_cons, Bool.false_or,
        List.map_cons]
      rw [ih]
      by_cases h3 : (rest.any fun e => pyEq v e.1) = true
      · rw [if_pos h3, if_pos h3]
      · rw [if_neg h3, if_neg h3]
        rfl

theorem values_add (c : Claims) (v : Value) (s : String) :
    (c.add v s).values =
      if recorded v && !(c.values.any (fun w => pyEq v w)) then c.values ++ [v]
      else c.values := by
  by_cases hr : recorded v = true
  · have hg : (!truthy v && !pyEq v (.vint 0)) = false := by
      have := hr; unfold recorded at this
      rcases Bool.or_eq_true_iff.1 this with h | h <;> simp [h]
    have hany : c.values.any (fun w => pyEq v w) = c._list.any (fun e => pyEq v e.1) := by
      show ((c._list.map Prod.fst).any fun w => pyEq v w) = _
      induction c._list with
      | nil => rfl
      | cons e rest ih => simp [ih]
    unfold Claims.add
    rw [hg]
    simp only [Bool.false_eq_true, if_false]
    show (addEntry v s c._list).map Prod.fst = _
    rw [addEntry_map_fst, hr, hany]
    cases h2 : c._list.any (fun e => pyEq v e.1) <;> simp [Claims.values]
  · have hg : (!truthy v && !pyEq v (.vint 0)) = true := by
      unfold recorded at hr
      simp only [Bool.or_eq_true_iff] at hr
      push_neg at hr
      simp [Bool.eq_false_iff.2 hr.1, Bool.eq_false_iff.2 hr.2]
    unfold Claims.add
    rw [hg]
    simp [Bool.eq_false_iff.2 hr]

theorem foldl_add_values (calls : List (Value × String)) :
    ∀ c : Claims,
      (calls.foldl (fun c e => c.add e.1 e.2) c).values =
        calls.foldl
          (fun acc e =>
            if recorded e.1 && !(acc.any (fun w => pyEq e.1 w)) then acc ++ [e.1] else acc)
          c.values := by
  induction calls with
  | nil => intro c; rfl
  | cons e rest ih =>
    intro c
    simp only [List.foldl_cons]
    rw [ih]
    congr 1
    exact values_add c e.1 e.2

theorem specFold_mem :
    ∀ (calls : List (Value × String)) (acc : List Value) (v : Value),
      v ∈ calls.foldl
          (fun acc e =>
            if recorded e.1 && !(acc.any (fun w => pyEq e.1 w)) then acc ++ [e.1] else acc)
          acc →
      v ∈ acc ∨ recorded v = true := by
  intro calls
  induction calls with
  | nil => intro acc v h; exact Or.inl h
  | cons e rest ih =>
    intro acc v h
    simp only [List.foldl_cons] at h
    rcases ih _ v h with h2 | h2
    · by_cases hg : (recorded e.1 && !(acc.any (fun w => pyEq e.1 w))) = true
      · rw [if_pos hg] at h2
        rcases List.mem_append.1 h2 with h3 | h3
        · exact Or.inl h3
        · right
          have hv : v = e.1 := by simpa using h3
          rw [hv]
          exact (Bool.and_eq_true_iff.1 hg).1
      · rw [if_neg hg] at h2; exact Or.inl h2
    · exact Or.inr h2

theorem addEntry_of_match (v : Value) (s : String) :
    ∀ (l₁ : List (Value × List String)) (w : Value) (srcs : List String)
      (l₂ : List (Value × List String)),
      (∀ e ∈ l₁, pyEq v e.1 = false) → pyEq v w = true →
      addEntry v s (l₁ ++ (w, srcs) :: l₂) = l₁ ++ (w, srcs ++ [s]) :: l₂ := by
  intro l₁
  induction l₁ with
  | nil =>
    intro w srcs l₂ _ h2
    simp [addEntry, h2]
  | cons e rest ih =>
    intro w srcs l₂ h1 h2
    have he : pyEq v e.1 = false := h1 e (List.mem_cons_self e rest)
    have hrest : ∀ e2 ∈ rest, pyEq v e2.1 = false :=
      fun e2 he2 => h1 e2 (List.mem_cons_of_mem e he2)
    simp [addEntry, he, ih w srcs l₂ hrest h2]

/-- C1: on a fresh Claim, `add` ignores empty/missing values but records
the number 0 and `False`; a value Python-`==` to an already-recorded one
appends its source to that entry; and `values()` lists the distinct
recorded values in first-seen order, every one of them truthy or equal
to 0/False. -/
theorem c1_add_and_values_spec :
    (∀ (c : Claims) (v : Value) (s : String), recorded v = false → c.add v s = c) ∧
    (∀ s : String,
      ((⟨[]⟩ : Claims).add (.vint 0) s).values = [.vint 0] ∧
      ((⟨[]⟩ : Claims).add (.vbool false) s).values = [.vbool false]) ∧
    (∀ (c : Claims) (v : Value) (s : String) (l₁ : List (Value × List String)) (w : Value)
        (srcs : List String) (l₂ : List (Value × List String)),
      recorded v = true → c._list = l₁ ++ (w, srcs) :: l₂ →
      (∀ e ∈ l₁, pyEq v e.1 = false) → pyEq v w = true →
      (c.add v s)._list = l₁ ++ (w, srcs ++ [s]) :: l₂ ∧ (c.add v s).values = c.values) ∧
    (∀ calls : List (Value × String), (applyAdds calls).values = specValues calls) ∧
    (∀ (calls : List (Value × String)) (v : Value),
      v ∈ (applyAdds calls).values → truthy v = true ∨ pyEq v (.vint 0) = true) := by
  refine ⟨?_, ?_, ?_, ?_, ?_⟩
  · intro c v s hr
    have hg : (!truthy v && !pyEq v (.vint 0)) = true := by
      simp only [recorded, Bool.or_eq_false_iff] at hr
      simp [hr.1, hr.2]
    unfold Claims.add
    rw [hg]
    rfl
  · intro s
    constructor <;> rfl
  · intro c v s l₁ w srcs l₂ hr hc h1 h2
    have hg : (!truthy v && !pyEq v (.vint 0)) = false := by
      unfold recorded at hr
      rcases Bool.or_eq_true_iff.1 hr with h | h <;> simp [h]
    have hlist : (c.add v s)._list = l₁ ++ (w, srcs ++ [s]) :: l₂ := by
      unfold Claims.add
      rw [hg]
      simp only [Bool.false_eq_true, if_false]
      show addEntry v s c._list = _
      rw [hc]
      exact addEntry_of_match v s l₁ w srcs l₂ h1 h2
    refine ⟨hlist, ?_⟩
    show (c.add v s)._list.map Prod.fst = c._list.map Prod.fst
    rw [hlist, hc]
    simp
  · intro calls
    exact foldl_add_values calls ⟨[]⟩
  · intro calls v hv
    rw [show (applyAdds calls).values =
          calls.foldl
            (fun acc e =>
              if recorded e.1 && !(acc.any (fun w => pyEq e.1 w)) then acc ++ [e.1] else acc)
            [] from foldl_add_values calls ⟨[]⟩] at hv
    rcases specFold_mem calls [] v hv with h | h
    · cases h
    · exact Bool.or_eq_true_iff.1 h

/-- Witness for C1: the empty string is not recorded (its `add` is a
no-op), and adding `False` to a Claim that already holds the number 0
appends the source to the entry of 0. -/
theorem c1_witness :
    (recorded (.vstr "") = false ∧
      (⟨[(Value.vstr "x", ["a"])]⟩ : Claims).add (.vstr "") "b" =
        ⟨[(Value.vstr "x", ["a"])]⟩) ∧
    (recorded (.vbool false) = true ∧ pyEq (.vbool false) (.vint 0) = true ∧
      ((⟨[(Value.vint 0, ["a"])]⟩ : Claims).add (.vbool false) "b")._list =
          [(Value.vint 0, ["a", "b"])] ∧
      ((⟨[(Value.vint 0, ["a"])]⟩ : Claims).add (.vbool false) "b").values =
        (⟨[(Value.vint 0, ["a"])]⟩ : Claims).values) := by
  refine ⟨⟨by decide, c1_add_and_values_spec.1 _ _ _ (by decide)⟩, by decide, by decide, ?_⟩
  have h := c1_add_and_values_spec.2.2.1 ⟨[(Value.vint 0, ["a"])]⟩ (.vbool false) "b"
    [] (.vint 0) ["a"] [] (by decide) rfl (by intro e he; cases he) (by decide)
  exact ⟨h.1, h.2⟩

/-! ### Rendering -/

theorem intercalate_singleton (sep x : String) : String.intercalate sep [x] = x := by
  simp [String.intercalate, String.intercalate.go]

theorem intercalate_pair (sep x y : String) :
    String.intercalate sep [x, y] = x ++ sep ++ y := by
  simp [String.intercalate, String.intercalate.go]

/-- C2: `format(show_sources=True)` renders each entry as its textual
form suffixed by its parenthesized comma-joined sources, entries joined
by `"; "`; an empty Claim formats to the empty string; and the two
two-source scenarios render as `version: 1.0 (A, B)` and
`version: 1.0 (A); 2.0 (B)`. -/
theorem c2_format_spec :
    (∀ c : Claims, c.format true = specFormatClaim c._list) ∧
    (∀ b : Bool, (⟨[]⟩ : Claims).format b = "") ∧
    ((runUpdate (runUpdate emptyClaimsDict [("version", .vstr "1.0")] "A")
        [("version", .vstr "1.0")] "B").getItem "version"
      = .ok ⟨[(Value.vstr "1.0", ["A", "B"])]⟩ ∧
     (Claims.format ⟨[(Value.vstr "1.0", ["A", "B"])]⟩ true) = "1.0 (A, B)" ∧
     (runUpdate (runUpdate emptyClaimsDict [("version", .vstr "1.0")] "A")
        [("version", .vstr "1.0")] "B").format false 0 true = "version: 1.0 (A, B)") ∧
    ((runUpdate (runUpdate emptyClaimsDict [("version", .vstr "1.0")] "A")
        [("version", .vstr "2.0")] "B").getItem "version"
      = .ok ⟨[(Value.vstr "1.0", ["A"]), (Value.vstr "2.0", ["B"])]⟩ ∧
     (Claims.format ⟨[(Value.vstr "1.0", ["A"]), (Value.vstr "2.0", ["B"])]⟩ true)
       = "1.0 (A); 2.0 (B)" ∧
     (runUpdate (runUpdate emptyClaimsDict [("version", .vstr "1.0")] "A")
        [("version", .vstr "2.0")] "B").format false 0 true = "version: 1.0 (A); 2.0 (B)") := by
  refine ⟨fun c => by simp [Claims.format, specFormatClaim, String.append_assoc], fun b => rfl,
    ⟨rfl, rfl, rfl⟩, ⟨rfl, rfl, rfl⟩⟩

/-- C9: `add` never deduplicates sources — adding the same truthy value
twice from the same source lists that source twice, and `format` shows it
twice. -/
theorem c9_no_source_dedup :
    ∀ (v : Value) (s : String), truthy v = true →
      (((⟨[]⟩ : Claims).add v s).add v s)._list = [(v, [s, s])] ∧
      (((⟨[]⟩ : Claims).add v s).add v s).format true =
        pyStr v ++ " (" ++ s ++ ", " ++ s ++ ")" := by
  intro v s hv
  have hg : (!truthy v && !pyEq v (.vint 0)) = false := by simp [hv]
  have hlist : (((⟨[]⟩ : Claims).add v s).add v s)._list = [(v, [s, s])] := by
    unfold Claims.add
    rw [hg]
    simp only [Bool.false_eq_true, if_false]
    show addEntry v s (addEntry v s []) = _
    simp [addEntry, pyEq_refl]
  refine ⟨hlist, ?_⟩
  show Claims.format ⟨(((⟨[]⟩ : Claims).add v s).add v s)._list⟩ true = _
  rw [hlist]
  show String.intercalate "; " [pyStr v ++ (" (" ++ String.intercalate ", " [s, s] ++ ")")] = _
  rw [intercalate_singleton, intercalate_pair]
  simp [String.append_assoc]

/-- Witness for C9: adding `"1.0"` from source `"pypi"` twice yields the
entry `("1.0", ["pypi", "pypi"])`, rendered `1.0 (pypi, pypi)`. -/
theorem c9_witness :
    truthy (.vstr "1.0") = true ∧
    (((⟨[]⟩ : Claims).add (.vstr "1.0") "pypi").add (.vstr "1.0") "pypi")._list =
        [(Value.vstr "1.0", ["pypi", "pypi"])] ∧
    (((⟨[]⟩ : Claims).add (.vstr "1.0") "pypi").add (.vstr "1.0") "pypi").format true =
      pyStr (.vstr "1.0") ++ " (" ++ "pypi" ++ ", " ++ "pypi" ++ ")" :=
  ⟨by decide, (c9_no_source_dedup (.vstr "1.0") "pypi" (by decide)).1,
    (c9_no_source_dedup (.vstr "1.0") "pypi" (by decide)).2⟩

/-! ### Association-list facts for `ClaimsDict` -/

theorem alookup_append {α : Type} (k : String) (l₁ l₂ : List (String × α)) :
    alookup k (l₁ ++ l₂) =
      match alookup k l₁ with
      | some v => some v
      | none => alookup k l₂ := by
  induction l₁ with
  | nil => rfl
  | cons e rest ih =>
    by_cases h : e.1 = k
    · simp [alookup, h]
    · simp [alookup, h, ih]

theorem alookup_none_of_not_mem {α : Type} (k : String) (l : List (String × α))
    (h : k ∉ l.map Prod.fst) : alookup k l = none := by
  induction l with
  | nil => rfl
  | cons e rest ih =>
    simp only [List.map_cons, List.mem_cons] at h
    push_neg at h
    have h1 : e.1 ≠ k := fun hh => h.1 hh.symm
    simp [alookup, h1, ih h.2]

theorem alookup_cons {α : Type} (k : String) (e : String × α) (rest : List (String × α)) :
    alookup k (e :: rest) = if e.1 = k then some e.2 else alookup k rest := rfl

theorem mapBucket_cons (e : String × List (String × Value))
    (rest : List (String × List (String × Value))) (s : String) (m : List (String × Value)) :
    mapBucket (e :: rest) s m =
      (if e.1 = s then (e.1, dictUpdate e.2 m) else e) :: mapBucket rest s m := by
  unfold mapBucket
  rw [List.map_cons]

theorem alookup_mapBucket_self (d : List (String × List (String × Value))) (s : String)
    (m : List (String × Value)) :
    alookup s (mapBucket d s m) = (alookup s d).map (fun b => dictUpdate b m) := by
  induction d with
  | nil => rfl
  | cons e rest ih =>
    rw [mapBucket_cons]
    by_cases h : e.1 = s
    · simp [alookup_cons, h]
    · simp [alookup_cons, h, ih]

theorem alookup_mapBucket_ne (d : List (String × List (String × Value))) (s : String)
    (m : List (String × Value)) (s2 : String) (h : s2 ≠ s) :
    alookup s2 (mapBucket d s m) = alookup s2 d := by
  induction d with
  | nil => rfl
  | cons e rest ih =>
    rw [mapBucket_cons]
    by_cases h1 : e.1 = s
    · have h3 : ¬(s = s2) := fun hh => h hh.symm
      simp [alookup_cons, h1, h3, ih]
    · by_cases h2 : e.1 = s2
      · simp [alookup_cons, h1, h2, h]
      · simp [alookup_cons, h1, h2, ih]

theorem mapBucket_noop (d : List (String × List (String × Value))) (s : String)
    (m : List (String × Value)) (h : alookup s d = none) : mapBucket d s m = d := by
  induction d with
  | nil => rfl
  | cons e rest ih =>
    rw [alookup_cons] at h
    by_cases h1 : e.1 = s
    · rw [if_pos h1] at h; cases h
    · rw [if_neg h1] at h
      rw [mapBucket_cons, if_neg h1, ih h]

theorem mapBucket_append (d₁ d₂ : List (String × List (String × Value))) (s : String)
    (m : List (String × Value)) :
    mapBucket (d₁ ++ d₂) s m = mapBucket d₁ s m ++ mapBucket d₂ s m := by
  unfold mapBucket
  rw [List.map_append]

theorem mapBucket_comm (d : List (String × List (String × Value))) (s1 s2 : String)
    (m1 m2 : List (String × Value)) (h : s1 ≠ s2) :
    mapBucket (mapBucket d s1 m1) s2 m2 = mapBucket (mapBucket d s2 m2) s1 m1 := by
  induction d with
  | nil => rfl
  | cons e rest ih =>
    rw [mapBucket_cons, mapBucket_cons, mapBucket_cons, mapBucket_cons, ih]
    congr 1
    by_cases h1 : e.1 = s1
    · have h2 : ¬(e.1 = s2) := by rw [h1]; exact h
      simp [h1, h2, h]
    · by_cases h2 : e.1 = s2
      · have h3 : ¬(s2 = s1) := fun hh => h hh.symm
        simp [h1, h2, h3]
      · simp [h1, h2]

theorem applyUpdate_present (d : List (String × List (String × Value)))
    (m : List (String × Value)) (s : String) (h : (alookup s d).isSome = true) :
    applyUpdate d m s = mapBucket d s m := by
  unfold applyUpdate
  rw [if_pos h]

theorem applyUpdate_absent (d : List (String × List (String × Value)))
    (m : List (String × Value)) (s : String) (h : alookup s d = none) :
    applyUpdate d m s = d ++ [(s, dictUpdate [] m)] := by
  unfold applyUpdate
  rw [if_neg (by simp [h]), mapBucket_append, mapBucket_noop d s m h]
  simp [mapBucket]

theorem alookup_applyUpdate_self (d : List (String × List (String × Value)))
    (m : List (String × Value)) (s : String) :
    alookup s (applyUpdate d m s) = some (dictUpdate ((alookup s d).getD []) m) := by
  cases h : alookup s d with
  | none =>
    rw [applyUpdate_absent d m s h, alookup_append, h]
    simp [alookup]
  | some b =>
    rw [applyUpdate_present d m s (by simp [h]), alookup_mapBucket_self, h]
    rfl

theorem alookup_applyUpdate_ne (d : List (String × List (String × Value)))
    (m : List (String × Value)) (s s2 : String) (h : s2 ≠ s) :
    alookup s2 (applyUpdate d m s) = alookup s2 d := by
  unfold applyUpdate
  by_cases hp : (alookup s d).isSome = true
  · rw [if_pos hp, alookup_mapBucket_ne _ _ _ _ h]
  · rw [if_neg hp, alookup_mapBucket_ne _ _ _ _ h, alookup_append]
    cases h2 : alookup s2 d with
    | some b => rfl
    | none =>
      have h3 : ¬(s = s2) := fun hh => h hh.symm
      simp [alookup, h3]

theorem alookup_dictSet_self (b : List (String × Value)) (k : String) (v : Value) :
    alookup k (dictSet b k v) = some v := by
  induction b with
  | nil => simp [dictSet, alookup]
  | cons e rest ih =>
    by_cases h : e.1 = k
    · simp [dictSet, alookup, h]
    · simp [dictSet, alookup, h, ih]

theorem alookup_dictSet_ne (b : List (String × Value)) (k : String) (v : Value) (k2 : String)
    (h : k2 ≠ k) : alookup k2 (dictSet b k v) = alookup k2 b := by
  have h3 : ¬(k = k2) := fun hh => h hh.symm
  induction b with
  | nil => simp [dictSet, alookup, h3]
  | cons e rest ih =>
    by_cases h1 : e.1 = k
    · simp [dictSet, alookup, h1, h3]
    · by_cases h2 : e.1 = k2
      · simp [dictSet, alookup, h1, h2, h]
      · simp [dictSet, alookup, h1, h2, ih]

theorem alookup_dictUpdate_none (m : List (String × Value)) :
    ∀ (b : List (String × Value)) (k : String), alookup k m = none →
      alookup k (dictUpdate b m) = alookup k b := by
  induction m with
  | nil => intro b k _; rfl
  | cons e rest ih =>
    intro b k h
    unfold alookup at h
    by_cases h1 : e.1 = k
    · rw [if_pos h1] at h; cases h
    · rw [if_neg h1] at h
      show alookup k (dictUpdate (dictSet b e.1 e.2) rest) = _
      rw [ih _ k h, alookup_dictSet_ne _ _ _ _ (fun hh => h1 hh.symm)]

theorem alookup_dictUpdate_some (m : List (String × Value)) :
    ∀ (b : List (String × Value)) (k : String) (v : Value),
      (m.map Prod.fst).Nodup → alookup k m = some v →
      alookup k (dictUpdate b m) = some v := by
  induction m with
  | nil => intro b k v _ h; cases h
  | cons e rest ih =>
    intro b k v hnd h
    unfold alookup at h
    simp only [List.map_cons, List.nodup_cons] at hnd
    by_cases h1 : e.1 = k
    · rw [if_pos h1] at h
      have hrest : alookup k rest = none := by
        apply alookup_none_of_not_mem
        rw [← h1]
        exact hnd.1
      show alookup k (dictUpdate (dictSet b e.1 e.2) rest) = _
      rw [alookup_dictUpdate_none rest _ k hrest, h1, alookup_dictSet_self]
      exact h ▸ rfl
    · rw [if_neg h1] at h
      exact ih _ k v hnd.2 h

/-! ### `ClaimsDict.update` -/

theorem contains_iff_mem {l : List String} {a : String} : l.contains a = true ↔ a ∈ l :=
  List.elem_iff

theorem firstBadKey_cons (keys : List String) (e : String × Value)
    (rest : List (String × Value)) :
    firstBadKey keys (e :: rest) =
      if keys.contains e.1 then firstBadKey keys rest else some e.1 := rfl

theorem firstBadKey_none (keys : List String) (m : List (String × Value))
    (h : ∀ e ∈ m, keys.contains e.1 = true) : firstBadKey keys m = none := by
  induction m with
  | nil => rfl
  | cons e rest ih =>
    have he := h e (List.mem_cons_self e rest)
    simp only [firstBadKey, he, if_true]
    exact ih (fun e2 he2 => h e2 (List.mem_cons_of_mem e he2))

theorem firstBadKey_some_of (keys : List String) (m : List (String × Value))
    (h : ∃ e ∈ m, keys.contains e.1 = false) :
    ∃ k, firstBadKey keys m = some k ∧ keys.contains k = false := by
  induction m with
  | nil => rcases h with ⟨e, he, _⟩; cases he
  | cons e rest ih =>
    by_cases hc : keys.contains e.1 = true
    · rcases h with ⟨e2, he2, hbad⟩
      rcases List.mem_cons.1 he2 with h3 | h3
      · rw [h3] at hbad
        rw [hc] at hbad
        cases hbad
      · rcases ih ⟨e2, h3, hbad⟩ with ⟨k, hk1, hk2⟩
        refine ⟨k, ?_, hk2⟩
        rw [firstBadKey_cons, if_pos hc, hk1]
    · have hc2 : keys.contains e.1 = false := Bool.eq_false_iff.2 hc
      refine ⟨e.1, ?_, hc2⟩
      rw [firstBadKey_cons, if_neg (by rw [hc2]; exact Bool.false_ne_true)]

theorem update_ok_of_valid (cd : ClaimsDict) (m : List (String × Value)) (s : String)
    (h : ∀ e ∈ m, cd._keys.contains e.1 = true) :
    cd.update m s = .ok { cd with _data := applyUpdate cd._data m s } := by
  unfold ClaimsDict.update
  rw [firstBadKey_none _ _ h]

theorem update_ok_inv (cd : ClaimsDict) (m : List (String × Value)) (s : String)
    (cd2 : ClaimsDict) (h : cd.update m s = .ok cd2) :
    cd2 = { cd with _data := applyUpdate cd._data m s } := by
  unfold ClaimsDict.update at h
  cases hb : firstBadKey cd._keys m with
  | some k => rw [hb] at h; cases h
  | none =>
    rw [hb] at h
    injection h with h2
    exact h2.symm

/-- C3: updating a Claim Set with a mapping containing a key outside the
fixed enumeration raises `KeyError` (the `SchemaViolation`) before any
mutation, leaving the stored data unchanged; indexing an unknown key
raises, while `get` with a default returns the default. -/
theorem c3_unknown_key_fails :
    (∀ (cd : ClaimsDict) (data : List (String × Value)) (s : String),
      cd._keys = KEYS → (∃ e ∈ data, (e : String × Value).1 ∉ KEYS) →
      (∃ k, k ∉ KEYS ∧ cd.update data s = .error k) ∧ runUpdate cd data s = cd) ∧
    (∀ (cd : ClaimsDict) (k : String), cd._keys = KEYS → k ∉ KEYS →
      cd.getItem k = .error k ∧ ∀ d : Option Claims, cd.get k d = d) := by
  constructor
  · intro cd data s hkeys hbad
    have hbad2 : ∃ e ∈ data, cd._keys.contains e.1 = false := by
      rcases hbad with ⟨e, he, hnot⟩
      refine ⟨e, he, ?_⟩
      rw [hkeys]
      exact Bool.eq_false_iff.2 (fun hc => hnot (contains_iff_mem.1 hc))
    rcases firstBadKey_some_of cd._keys data hbad2 with ⟨k, hk1, hk2⟩
    have herr : cd.update data s = .error k := by
      unfold ClaimsDict.update
      rw [hk1]
    refine ⟨⟨k, ?_, herr⟩, ?_⟩
    · rw [hkeys] at hk2
      exact fun hm => by rw [contains_iff_mem.2 hm] at hk2; cases hk2
    · unfold runUpdate
      rw [herr]
  · intro cd k hkeys hk
    have hc : cd._keys.contains k = false := by
      rw [hkeys]
      exact Bool.eq_false_iff.2 (fun hc => hk (contains_iff_mem.1 hc))
    have hgi : cd.getItem k = .error k := by
      unfold ClaimsDict.getItem
      rw [hc]
      rfl
    refine ⟨hgi, fun d => ?_⟩
    unfold ClaimsDict.get
    rw [hgi]

/-- Witness for C3: `update` with the unknown key `"bogus"` fails and
leaves a one-source Claim Set unchanged; indexing `"bogus"` fails and
`get` returns the default. -/
theorem c3_witness :
    (emptyClaimsDict._keys = KEYS ∧ ("bogus" : String) ∉ KEYS) ∧
    ((∃ k, k ∉ KEYS ∧ emptyClaimsDict.update [("bogus", .vint 1)] "pypi" = .error k) ∧
      runUpdate emptyClaimsDict [("bogus", .vint 1)] "pypi" = emptyClaimsDict) ∧
    (emptyClaimsDict.getItem "bogus" = .error "bogus" ∧
      ∀ d : Option Claims, emptyClaimsDict.get "bogus" d = d) := by
  refine ⟨⟨rfl, by decide⟩, ?_, ?_⟩
  · exact c3_unknown_key_fails.1 emptyClaimsDict [("bogus", .vint 1)] "pypi" rfl
      ⟨("bogus", .vint 1), List.mem_singleton.2 rfl, by decide⟩
  · exact c3_unknown_key_fails.2 emptyClaimsDict "bogus" rfl (by decide)

/-- C4: two updates from the same source: the second report's value wins
for every key the second mapping defines, while every other source's
stored bucket is untouched by either update. -/
theorem c4_same_source_overwrites :
    ∀ (cd : ClaimsDict) (s : String) (m1 m2 : List (String × Value)) (cd1 cd2 : ClaimsDict),
      (m2.map Prod.fst).Nodup →
      cd.update m1 s = .ok cd1 → cd1.update m2 s = .ok cd2 →
      (∀ (k : String) (v : Value), alookup k m2 = some v →
        (alookup s cd2._data).bind (fun b => alookup k b) = some v) ∧
      (∀ s2, s2 ≠ s → alookup s2 cd1._data = alookup s2 cd._data) ∧
      (∀ s2, s2 ≠ s → alookup s2 cd2._data = alookup s2 cd._data) := by
  intro cd s m1 m2 cd1 cd2 hnd h1 h2
  have e1 : cd1 = { cd with _data := applyUpdate cd._data m1 s } := update_ok_inv _ _ _ _ h1
  have e2 : cd2 = { cd1 with _data := applyUpdate cd1._data m2 s } := update_ok_inv _ _ _ _ h2
  refine ⟨?_, ?_, ?_⟩
  · intro k v hv
    rw [e2]
    show (alookup s (applyUpdate cd1._data m2 s)).bind _ = _
    rw [alookup_applyUpdate_self]
    show alookup k (dictUpdate _ m2) = some v
    exact alookup_dictUpdate_some m2 _ k v hnd hv
  · intro s2 hs2
    rw [e1]
    exact alookup_applyUpdate_ne _ _ _ _ hs2
  · intro s2 hs2
    rw [e2, e1]
    show alookup s2 (applyUpdate (applyUpdate cd._data m1 s) m2 s) = _
    rw [alookup_applyUpdate_ne _ _ _ _ hs2, alookup_applyUpdate_ne _ _ _ _ hs2]

/-- Witness for C4: `local` reports `version: 1.0` then `version: 2.0`;
the stored value for (`local`, `version`) is `2.0`, and `github`'s prior
bucket is untouched. -/
theorem c4_witness :
    (([("version", Value.vstr "2.0")].map Prod.fst).Nodup ∧
      (⟨KEYS, 9, [("github", [("version", Value.vstr "0.9")])]⟩ : ClaimsDict).update
          [("version", .vstr "1.0")] "local" =
        .ok ⟨KEYS, 9, [("github", [("version", Value.vstr "0.9")]),
          ("local", [("version", Value.vstr "1.0")])]⟩) ∧
    (∀ (k : String) (v : Value), alookup k [("version", Value.vstr "2.0")] = some v →
      (alookup "local"
          (runUpdate (runUpdate
            (⟨KEYS, 9, [("github", [("version", Value.vstr "0.9")])]⟩ : ClaimsDict)
            [("version", .vstr "1.0")] "local") [("version", .vstr "2.0")] "local")._data).bind
        (fun b => alookup k b) = some v) ∧
    (∀ s2, s2 ≠ "local" →
      alookup s2 (runUpdate (runUpdate
          (⟨KEYS, 9, [("github", [("version", Value.vstr "0.9")])]⟩ : ClaimsDict)
          [("version", .vstr "1.0")] "local") [("version", .vstr "2.0")] "local")._data =
        alookup s2 (⟨KEYS, 9, [("github", [("version", Value.vstr "0.9")])]⟩ :
          ClaimsDict)._data) := by
  have h := c4_same_source_overwrites
    ⟨KEYS, 9, [("github", [("version", Value.vstr "0.9")])]⟩ "local"
    [("version", .vstr "1.0")] [("version", .vstr "2.0")] _ _
    (by decide) rfl rfl
  exact ⟨⟨by decide, rfl⟩, h.1, h.2.2⟩

/-- C8 counterexample: the fixed enumeration does not contain the key
`"uncommitted_changes"` (the source spells it `"uncommited_changes"`), so
an update whose only key is `"uncommitted_changes"` raises `KeyError`, as
does indexing it. -/
theorem c8_counterexample :
    ("uncommitted_changes" ∈ KEYS → False) ∧
    emptyClaimsDict.update [("uncommitted_changes", .vbool true)] "local" =
      .error "uncommitted_changes" ∧
    emptyClaimsDict.getItem "uncommitted_changes" = .error "uncommitted_changes" := by
  exact ⟨by decide, rfl, rfl⟩

/-- C8 as amended: the enumeration's spelling is `"uncommited_changes"`;
updates whose only key is that spelling succeed, and indexing it does not
fail. -/
theorem c8_amended_key_spelling :
    ("uncommited_changes" ∈ KEYS) ∧
    (∀ (cd : ClaimsDict) (v : Value) (s : String), cd._keys = KEYS →
      (∃ cd2, cd.update [("uncommited_changes", v)] s = .ok cd2) ∧
      (∃ c, cd.getItem "uncommited_changes" = .ok c)) := by
  refine ⟨by decide, ?_⟩
  intro cd v s hk
  constructor
  · refine ⟨_, update_ok_of_valid cd _ s ?_⟩
    intro e he
    simp only [List.mem_singleton] at he
    rw [he, hk]
    show KEYS.contains "uncommited_changes" = true
    decide
  · have hok : cd.getItem "uncommited_changes" =
        .ok (cd._data.foldl (fun c e =>
          match alookup "uncommited_changes" e.2 with
          | some v => c.add v e.1
          | none => c) ⟨[]⟩) := by
      unfold ClaimsDict.getItem
      rw [hk, if_pos (by decide)]
    exact ⟨_, hok⟩

/-- Witness for C8 (amended): a `local` report of
`uncommited_changes: True` on a fresh Claim Set succeeds, and the key can
be indexed. -/
theorem c8_witness :
    emptyClaimsDict._keys = KEYS ∧
    (∃ cd2, emptyClaimsDict.update [("uncommited_changes", .vbool true)] "local" = .ok cd2) ∧
    (∃ c, emptyClaimsDict.getItem "uncommited_changes" = .ok c) :=
  ⟨rfl, (c8_amended_key_spelling.2 emptyClaimsDict (.vbool true) "local" rfl).1,
    (c8_amended_key_spelling.2 emptyClaimsDict (.vbool true) "local" rfl).2⟩

/-! ### Commutation of updates from distinct sources -/

theorem runUpdate_of_valid (cd : ClaimsDict) (m : List (String × Value)) (s : String)
    (h : ∀ e ∈ m, cd._keys.contains e.1 = true) :
    runUpdate cd m s = { cd with _data := applyUpdate cd._data m s } := by
  unfold runUpdate
  rw [update_ok_of_valid cd m s h]

theorem applyUpdate_comm (d : List (String × List (String × Value)))
    (m1 m2 : List (String × Value)) (s1 s2 : String) (h : s1 ≠ s2) :
    (∀ s, alookup s (applyUpdate (applyUpdate d m1 s1) m2 s2) =
          alookup s (applyUpdate (applyUpdate d m2 s2) m1 s1)) ∧
    List.Perm (applyUpdate (applyUpdate d m1 s1) m2 s2)
              (applyUpdate (applyUpdate d m2 s2) m1 s1) := by
  constructor
  · intro s
    by_cases hs1 : s = s1
    · subst hs1
      rw [alookup_applyUpdate_ne _ _ _ _ h, alookup_applyUpdate_self,
        alookup_applyUpdate_self, alookup_applyUpdate_ne _ _ _ _ h]
    · by_cases hs2 : s = s2
      · subst hs2
        rw [alookup_applyUpdate_self, alookup_applyUpdate_ne _ _ _ _ (Ne.symm h),
          alookup_applyUpdate_ne _ _ _ _ (Ne.symm h), alookup_applyUpdate_self]
      · rw [alookup_applyUpdate_ne _ _ _ _ hs2, alookup_applyUpdate_ne _ _ _ _ hs1,
          alookup_applyUpdate_ne _ _ _ _ hs1, alookup_applyUpdate_ne _ _ _ _ hs2]
  · cases h1 : alookup s1 d with
    | some b1 =>
      cases h2 : alookup s2 d with
      | some b2 =>
        have e1 : applyUpdate d m1 s1 = mapBucket d s1 m1 :=
          applyUpdate_present _ _ _ (by rw [h1]; rfl)
        have e2 : applyUpdate d m2 s2 = mapBucket d s2 m2 :=
          applyUpdate_present _ _ _ (by rw [h2]; rfl)
        have p2 : (alookup s2 (mapBucket d s1 m1)).isSome = true := by
          rw [alookup_mapBucket_ne _ _ _ _ (Ne.symm h), h2]; rfl
        have p1 : (alookup s1 (mapBucket d s2 m2)).isSome = true := by
          rw [alookup_mapBucket_ne _ _ _ _ h, h1]; rfl
        rw [e1, e2, applyUpdate_present _ _ _ p2, applyUpdate_present _ _ _ p1,
          mapBucket_comm d s1 s2 m1 m2 h]
      | none =>
        have e1 : applyUpdate d m1 s1 = mapBucket d s1 m1 :=
          applyUpdate_present _ _ _ (by rw [h1]; rfl)
        have h2x : alookup s2 (mapBucket d s1 m1) = none := by
          rw [alookup_mapBucket_ne _ _ _ _ (Ne.symm h), h2]
        have e2 : applyUpdate d m2 s2 = d ++ [(s2, dictUpdate [] m2)] :=
          applyUpdate_absent _ _ _ h2
        have p1 : (alookup s1 (d ++ [(s2, dictUpdate [] m2)])).isSome = true := by
          rw [alookup_append, h1]; rfl
        rw [e1, applyUpdate_absent _ _ _ h2x, e2, applyUpdate_present _ _ _ p1,
          mapBucket_append,
          mapBucket_noop [(s2, dictUpdate [] m2)] s1 m1 (by simp [alookup, Ne.symm h])]
    | none =>
        cases h2 : alookup s2 d with
        | some b2 =>
          have e2 : applyUpdate d m2 s2 = mapBucket d s2 m2 :=
            applyUpdate_present _ _ _ (by rw [h2]; rfl)
          have h1x : alookup s1 (mapBucket d s2 m2) = none := by
            rw [alookup_mapBucket_ne _ _ _ _ h, h1]
          have e1 : applyUpdate d m1 s1 = d ++ [(s1, dictUpdate [] m1)] :=
            applyUpdate_absent _ _ _ h1
          have p2 : (alookup s2 (d ++ [(s1, dictUpdate [] m1)])).isSome = true := by
            rw [alookup_append, h2]; rfl
          rw [e2, applyUpdate_absent _ _ _ h1x, e1, applyUpdate_present _ _ _ p2,
            mapBucket_append,
            mapBucket_noop [(s1, dictUpdate [] m1)] s2 m2 (by simp [alookup, h])]
        | none =>
          have e1 : applyUpdate d m1 s1 = d ++ [(s1, dictUpdate [] m1)] :=
            applyUpdate_absent _ _ _ h1
          have e2 : applyUpdate d m2 s2 = d ++ [(s2, dictUpdate [] m2)] :=
            applyUpdate_absent _ _ _ h2
          have h2x : alookup s2 (d ++ [(s1, dictUpdate [] m1)]) = none := by
            rw [alookup_append, h2]
            simp [alookup, h]
          have h1x : alookup s1 (d ++ [(s2, dictUpdate [] m2)]) = none := by
            rw [alookup_append, h1]
            simp [alookup, Ne.symm h]
          rw [e1, applyUpdate_absent _ _ _ h2x, e2, applyUpdate_absent _ _ _ h1x,
            List.append_assoc, List.append_assoc]
          exact List.Perm.append_left d (List.Perm.swap _ _ _)

/-- C7 as amended: updates from two distinct sources commute up to
content — either order yields Claim Sets whose per-source buckets are
identical, whose source lists are permutations of each other, and whose
per-key `(source, value)` contributions agree up to order; only entry
display order and within-entry source order in the derived Claims may
differ. -/
theorem c7_amended_update_commutes :
    ∀ (cd : ClaimsDict) (m1 m2 : List (String × Value)) (s1 s2 : String),
      s1 ≠ s2 →
      (∀ e ∈ m1, cd._keys.contains (e : String × Value).1 = true) →
      (∀ e ∈ m2, cd._keys.contains (e : String × Value).1 = true) →
      (∀ s, alookup s (runUpdate (runUpdate cd m1 s1) m2 s2)._data =
            alookup s (runUpdate (runUpdate cd m2 s2) m1 s1)._data) ∧
      List.Perm (runUpdate (runUpdate cd m1 s1) m2 s2)._data
                (runUpdate (runUpdate cd m2 s2) m1 s1)._data ∧
      (∀ k, List.Perm (contributions (runUpdate (runUpdate cd m1 s1) m2 s2) k)
                      (contributions (runUpdate (runUpdate cd m2 s2) m1 s1) k)) := by
  intro cd m1 m2 s1 s2 hne hv1 hv2
  have hA : runUpdate (runUpdate cd m1 s1) m2 s2 =
      { cd with _data := applyUpdate (applyUpdate cd._data m1 s1) m2 s2 } := by
    rw [runUpdate_of_valid cd m1 s1 hv1]
    exact runUpdate_of_valid _ m2 s2 (fun e he => hv2 e he)
  have hB : runUpdate (runUpdate cd m2 s2) m1 s1 =
      { cd with _data := applyUpdate (applyUpdate cd._data m2 s2) m1 s1 } := by
    rw [runUpdate_of_valid cd m2 s2 hv2]
    exact runUpdate_of_valid _ m1 s1 (fun e he => hv1 e he)
  rw [hA, hB]
  rcases applyUpdate_comm cd._data m1 m2 s1 s2 hne with ⟨hpt, hperm⟩
  exact ⟨hpt, hperm, fun k => List.Perm.filterMap _ hperm⟩

/-- C7 counterexample: with sources `A ≠ B` both reporting
`version: "1.0"` on a fresh Claim Set, the two merge orders give the
Claim entry `("1.0", ["A", "B"])` in one order and `("1.0", ["B", "A"])`
in the other: the `(value, sources)` entries differ (in within-entry
source order), not merely in entry display order. -/
theorem c7_counterexample :
    (runUpdate (runUpdate emptyClaimsDict [("version", Value.vstr "1.0")] "A")
        [("version", Value.vstr "1.0")] "B").getItem "version" =
      .ok ⟨[(Value.vstr "1.0", ["A", "B"])]⟩ ∧
    (runUpdate (runUpdate emptyClaimsDict [("version", Value.vstr "1.0")] "B")
        [("version", Value.vstr "1.0")] "A").getItem "version" =
      .ok ⟨[(Value.vstr "1.0", ["B", "A"])]⟩ ∧
    ¬ List.Perm [(Value.vstr "1.0", ["A", "B"])] [(Value.vstr "1.0", ["B", "A"])] := by
  exact ⟨rfl, rfl, by decide⟩

/-- Witness for C7 (amended): concrete two-source merge, checked in both
orders. -/
theorem c7_witness :
    (("A" : String) ≠ "B") ∧
    ((∀ s, alookup s (runUpdate (runUpdate emptyClaimsDict
            [("version", Value.vstr "1.0")] "A") [("version", Value.vstr "2.0")] "B")._data =
          alookup s (runUpdate (runUpdate emptyClaimsDict
            [("version", Value.vstr "2.0")] "B") [("version", Value.vstr "1.0")] "A")._data) ∧
      List.Perm
        (runUpdate (runUpdate emptyClaimsDict [("version", Value.vstr "1.0")] "A")
          [("version", Value.vstr "2.0")] "B")._data
        (runUpdate (runUpdate emptyClaimsDict [("version", Value.vstr "2.0")] "B")
          [("version", Value.vstr "1.0")] "A")._data ∧
      (∀ k, List.Perm
        (contributions (runUpdate (runUpdate emptyClaimsDict
          [("version", Value.vstr "1.0")] "A") [("version", Value.vstr "2.0")] "B") k)
        (contributions (runUpdate (runUpdate emptyClaimsDict
          [("version", Value.vstr "2.0")] "B") [("version", Value.vstr "1.0")] "A") k))) :=
  ⟨by decide,
    c7_amended_update_commutes emptyClaimsDict
      [("version", Value.vstr "1.0")] [("version", Value.vstr "2.0")] "A" "B"
      (by decide) (by decide) (by decide)⟩

/-! ### Fetch orchestration -/

/-- A project mapping with one source-kind entry deleted (used to state
that a failing source contributes nothing: the result equals the one for
the project without that source). -/
def removeKey (k : String) : List (String × String) → List (String × String)
  | [] => []
  | e :: rest => if e.1 = k then removeKey k rest else e :: removeKey k rest

theorem alookup_removeKey_self (k : String) (p : List (String × String)) :
    alookup k (removeKey k p) = none := by
  induction p with
  | nil => rfl
  | cons e rest ih =>
    by_cases h : e.1 = k
    · simp [removeKey, h, ih]
    · simp [removeKey, alookup, h, ih]

theorem alookup_removeKey_ne (k k2 : String) (p : List (String × String)) (h : k2 ≠ k) :
    alookup k2 (removeKey k p) = alookup k2 p := by
  have h3 : ¬(k = k2) := fun hh => h hh.symm
  induction p with
  | nil => rfl
  | cons e rest ih =>
    by_cases h1 : e.1 = k
    · simp [removeKey, alookup, h1, h3, ih]
    · by_cases h2 : e.1 = k2
      · simp [removeKey, alookup, h1, h2, h]
      · simp [removeKey, alookup, h1, h2, ih]

theorem get_source_fail (fetch : String → String → Except String (List (String × Value)))
    (kind ident : String) (c : ClaimsDict) (e : String) (h : fetch kind ident = .error e) :
    get_source fetch kind ident c = (c, [⟨kind, ident, e⟩]) := by
  unfold get_source
  rw [h]

theorem get_source_frame (fetch : String → String → Except String (List (String × Value)))
    (kind ident : String) (c : ClaimsDict) (s0 : String) (h : s0 ≠ kind) :
    alookup s0 ((get_source fetch kind ident c).1)._data = alookup s0 c._data := by
  cases hf : fetch kind ident with
  | error e => rw [get_source_fail fetch kind ident c e hf]
  | ok data =>
    cases hu : c.update data kind with
    | error k =>
      have hgs : get_source fetch kind ident c = (c, [⟨kind, ident, k⟩]) := by
        unfold get_source
        simp only [hf, hu]
      rw [hgs]
    | ok cd2 =>
      have hgs : get_source fetch kind ident c = (cd2, []) := by
        unfold get_source
        simp only [hf, hu]
      rw [hgs]
      show alookup s0 cd2._data = _
      rw [update_ok_inv c data kind cd2 hu]
      exact alookup_applyUpdate_ne _ _ _ _ h

theorem goSources_cons (fetch : String → String → Except String (List (String × Value)))
    (p : List (String × String)) (s : String) (rest : List String)
    (acc : ClaimsDict × List LogEntry) :
    goSources fetch p (s :: rest) acc =
      match alookup s p with
      | some ident =>
        goSources fetch p rest ((get_source fetch s ident acc.1).1,
          acc.2 ++ (get_source fetch s ident acc.1).2)
      | none => goSources fetch p rest acc := rfl

theorem goSources_logs_shift (fetch : String → String → Except String (List (String × Value)))
    (p : List (String × String)) :
    ∀ (srcs : List String) (c : ClaimsDict) (logs : List LogEntry),
      goSources fetch p srcs (c, logs) =
        ((goSources fetch p srcs (c, [])).1, logs ++ (goSources fetch p srcs (c, [])).2) := by
  intro srcs
  induction srcs with
  | nil => intro c logs; simp [goSources]
  | cons s rest ih =>
    intro c logs
    cases halo : alookup s p with
    | none => simp only [goSources_cons, halo]; exact ih c logs
    | some ident =>
      simp only [goSources_cons, halo]
      rw [ih (get_source fetch s ident c).1 (logs ++ (get_source fetch s ident c).2),
        ih (get_source fetch s ident c).1 ([] ++ (get_source fetch s ident c).2)]
      simp [List.append_assoc]

theorem goSources_remove_failing (fetch : String → String → Except String (List (String × Value)))
    (p : List (String × String)) (s0 i0 e : String) (hp : alookup s0 p = some i0)
    (hf : fetch s0 i0 = .error e) :
    ∀ (srcs : List String) (c : ClaimsDict) (logs1 logs2 : List LogEntry),
      (goSources fetch p srcs (c, logs1)).1 =
        (goSources fetch (removeKey s0 p) srcs (c, logs2)).1 := by
  intro srcs
  induction srcs with
  | nil => intro c l1 l2; rfl
  | cons s rest ih =>
    intro c l1 l2
    by_cases hs : s = s0
    · subst hs
      simp only [goSources_cons, hp, alookup_removeKey_self,
        get_source_fail fetch s i0 c e hf]
      exact ih c _ l2
    · rw [goSources_cons, goSources_cons, alookup_removeKey_ne _ _ _ hs]
      cases halo : alookup s p with
      | none => exact ih c l1 l2
      | some ident => exact ih (get_source fetch s ident c).1 _ _

theorem goSources_no_bucket (fetch : String → String → Except String (List (String × Value)))
    (p : List (String × String)) (s0 i0 e : String) (hp : alookup s0 p = some i0)
    (hf : fetch s0 i0 = .error e) :
    ∀ (srcs : List String) (c : ClaimsDict) (logs : List LogEntry),
      alookup s0 ((goSources fetch p srcs (c, logs)).1)._data = alookup s0 c._data := by
  intro srcs
  induction srcs with
  | nil => intro c logs; rfl
  | cons s rest ih =>
    intro c logs
    cases halo : alookup s p with
    | none =>
      simp only [goSources_cons, halo]
      exact ih c logs
    | some ident =>
      simp only [goSources_cons, halo]
      rw [ih (get_source fetch s ident c).1 _]
      by_cases hs : s = s0
      · subst hs
        rw [hp] at halo
        injection halo with hi
        rw [hi] at hf
        rw [get_source_fail fetch s ident c e hf]
      · exact get_source_frame fetch s ident c s0 (fun hh => hs hh.symm)

theorem goSources_log_mem (fetch : String → String → Except String (List (String × Value)))
    (p : List (String × String)) (s0 i0 e : String) (hp : alookup s0 p = some i0)
    (hf : fetch s0 i0 = .error e) :
    ∀ (srcs : List String) (c : ClaimsDict) (logs : List LogEntry), s0 ∈ srcs →
      LogEntry.mk s0 i0 e ∈ (goSources fetch p srcs (c, logs)).2 := by
  intro srcs
  induction srcs with
  | nil => intro c logs h; cases h
  | cons s rest ih =>
    intro c logs hmem
    by_cases hs : s = s0
    · subst hs
      simp only [goSources_cons, hp, get_source_fail fetch s i0 c e hf]
      rw [goSources_logs_shift]
      simp
    · have hmem2 : s0 ∈ rest := by
        rcases List.mem_cons.1 hmem with h | h
        · exact absurd h.symm hs
        · exact h
      cases halo : alookup s p with
      | none =>
        simp only [goSources_cons, halo]
        exact ih c logs hmem2
      | some ident =>
        simp only [goSources_cons, halo]
        exact ih (get_source fetch s ident c).1 _ hmem2

theorem goSources_all_fail (fetch : String → String → Except String (List (String × Value)))
    (p : List (String × String)) (hf : ∀ s i, (fetch s i).isOk = false) :
    ∀ (srcs : List String) (c : ClaimsDict) (logs : List LogEntry),
      (goSources fetch p srcs (c, logs)).1 = c := by
  intro srcs
  induction srcs with
  | nil => intro c logs; rfl
  | cons s rest ih =>
    intro c logs
    cases halo : alookup s p with
    | none =>
      simp only [goSources_cons, halo]
      exact ih c logs
    | some ident =>
      simp only [goSources_cons, halo]
      cases hfe : fetch s ident with
      | ok data =>
        have := hf s ident
        rw [hfe] at this
        cases this
      | error err =>
        rw [get_source_fail fetch s ident c err hfe]
        exact ih c _

theorem goSources_project_agree
    (fetch : String → String → Except String (List (String × Value)))
    (p p2 : List (String × String)) :
    ∀ (srcs : List String), (∀ s ∈ srcs, alookup s p = alookup s p2) →
      ∀ acc, goSources fetch p srcs acc = goSources fetch p2 srcs acc := by
  intro srcs
  induction srcs with
  | nil => intro _ acc; rfl
  | cons s rest ih =>
    intro h acc
    have hrest : ∀ s2 ∈ rest, alookup s2 p = alookup s2 p2 :=
      fun s2 hs2 => h s2 (List.mem_cons_of_mem s hs2)
    rw [goSources_cons, goSources_cons, ← h s (List.mem_cons_self s rest)]
    cases halo : alookup s p with
    | none => exact ih hrest acc
    | some ident => exact ih hrest _

theorem goSources_fetch_agree (p : List (String × String)) :
    ∀ (srcs : List String) (f1 f2 : String → String → Except String (List (String × Value))),
      (∀ s ∈ srcs, ∀ i, f1 s i = f2 s i) →
      ∀ acc, goSources f1 p srcs acc = goSources f2 p srcs acc := by
  intro srcs
  induction srcs with
  | nil => intro _ _ _ acc; rfl
  | cons s rest ih =>
    intro f1 f2 h acc
    have hrest : ∀ s2 ∈ rest, ∀ i, f1 s2 i = f2 s2 i :=
      fun s2 hs2 => h s2 (List.mem_cons_of_mem s hs2)
    have hsrc : ∀ ident c, get_source f1 s ident c = get_source f2 s ident c := by
      intro ident c
      unfold get_source
      rw [h s (List.mem_cons_self s rest) ident]
    rw [goSources_cons, goSources_cons]
    cases halo : alookup s p with
    | none => exact ih f1 f2 hrest acc
    | some ident =>
      show goSources f1 p rest
          ((get_source f1 s ident acc.1).1, acc.2 ++ (get_source f1 s ident acc.1).2) =
        goSources f2 p rest
          ((get_source f2 s ident acc.1).1, acc.2 ++ (get_source f2 s ident acc.1).2)
      rw [hsrc ident acc.1]
      exact ih f1 f2 hrest _

/-- C5 as amended: a failing adapter is isolated — its failure is logged
with the source kind, the source-specific identifier and the error detail
(not the project key), its contribution is omitted (no bucket for that
source, and the Claim Set equals the one for the project without that
source), and the orchestrator always produces a Claim Set, the empty one
when every adapter fails. -/
theorem c5_amended_failure_isolation :
    (∀ (fetch : String → String → Except String (List (String × Value)))
        (pk : String) (p : List (String × String)) (s0 i0 e : String),
      alookup s0 p = some i0 → fetch s0 i0 = .error e →
      (get_project fetch pk p).1 = (get_project fetch pk (removeKey s0 p)).1 ∧
      (s0 ∈ SOURCES → LogEntry.mk s0 i0 e ∈ (get_project fetch pk p).2) ∧
      alookup s0 ((get_project fetch pk p).1)._data = none) ∧
    (∀ (fetch : String → String → Except String (List (String × Value)))
        (pk : String) (p : List (String × String)),
      (∀ s i, (fetch s i).isOk = false) → (get_project fetch pk p).1 = emptyClaimsDict) := by
  constructor
  · intro fetch pk p s0 i0 e hp hf
    refine ⟨?_, ?_, ?_⟩
    · exact goSources_remove_failing fetch p s0 i0 e hp hf SOURCES emptyClaimsDict [] []
    · intro hmem
      exact goSources_log_mem fetch p s0 i0 e hp hf SOURCES emptyClaimsDict [] hmem
    · exact goSources_no_bucket fetch p s0 i0 e hp hf SOURCES emptyClaimsDict []
  · intro fetch pk p hf
    exact goSources_all_fail fetch p hf SOURCES emptyClaimsDict []

/-- C5 counterexample: with one configured source failing, the logged
record carries the source kind `github`, the identifier and the error
text — and the whole orchestrator result, log included, is identical for
project keys `"foo"` and `"bar"`, so the project key is not part of the
log. -/
theorem c5_counterexample :
    (get_project (fun _ _ => .error "network unreachable") "foo"
        [("github", "https://github.com/xi/project-stats")]).2 =
      [⟨"github", "https://github.com/xi/project-stats", "network unreachable"⟩] ∧
    get_project (fun _ _ => .error "network unreachable") "foo"
        [("github", "https://github.com/xi/project-stats")] =
      get_project (fun _ _ => .error "network unreachable") "bar"
        [("github", "https://github.com/xi/project-stats")] := by
  exact ⟨rfl, rfl⟩

/-- Witness for C5 (amended): concrete failing `github` fetch. -/
theorem c5_witness :
    (alookup "github" [("github", "u")] = some "u" ∧
      (fun (_ _ : String) => (.error "boom" : Except String (List (String × Value))))
          "github" "u" = .error "boom") ∧
    ((get_project (fun _ _ => .error "boom") "k" [("github", "u")]).1 =
        (get_project (fun _ _ => .error "boom") "k" (removeKey "github" [("github", "u")])).1 ∧
      ("github" ∈ SOURCES →
        LogEntry.mk "github" "u" "boom" ∈
          (get_project (fun _ _ => .error "boom") "k" [("github", "u")]).2) ∧
      alookup "github"
        ((get_project (fun _ _ => .error "boom") "k" [("github", "u")]).1)._data = none) :=
  ⟨⟨by decide, rfl⟩,
    c5_amended_failure_isolation.1 (fun _ _ => .error "boom") "k" [("github", "u")]
      "github" "u" "boom" (by decide) rfl⟩

/-- C10: only the seven known source kinds are consulted: `get_project`
depends on the project mapping only through its values at the known
kinds, an appended entry with an unknown kind changes nothing (no fetch,
no log, same Claim Set), and the result never depends on what `fetch`
does at unknown kinds. -/
theorem c10_unknown_kind_ignored :
    (∀ (fetch : String → String → Except String (List (String × Value)))
        (pk : String) (p p2 : List (String × String)),
      (∀ s ∈ SOURCES, alookup s p = alookup s p2) →
      get_project fetch pk p = get_project fetch pk p2) ∧
    (∀ (fetch : String → String → Except String (List (String × Value)))
        (pk : String) (p : List (String × String)) (u ident : String), u ∉ SOURCES →
      get_project fetch pk (p ++ [(u, ident)]) = get_project fetch pk p) ∧
    (∀ (f1 f2 : String → String → Except String (List (String × Value)))
        (pk : String) (p : List (String × String)),
      (∀ s ∈ SOURCES, ∀ i, f1 s i = f2 s i) →
      get_project f1 pk p = get_project f2 pk p) := by
  refine ⟨?_, ?_, ?_⟩
  · intro fetch pk p p2 h
    exact goSources_project_agree fetch p p2 SOURCES h _
  · intro fetch pk p u ident hu
    apply goSources_project_agree fetch (p ++ [(u, ident)]) p SOURCES _ _
    intro s hs
    rw [alookup_append]
    cases halo : alookup s p with
    | some v => rfl
    | none =>
      have hne : ¬(u = s) := fun hh => hu (hh ▸ hs)
      simp [alookup, hne]
  · intro f1 f2 pk p h
    exact goSources_fetch_agree p SOURCES f1 f2 h _

/-- Witness for C10: appending the unknown kind `sourceforge` to a
one-source project changes nothing. -/
theorem c10_witness :
    (("sourceforge" : String) ∉ SOURCES) ∧
    get_project (fun _ _ => .error "boom") "k"
        ([("github", "u")] ++ [("sourceforge", "x")]) =
      get_project (fun _ _ => .error "boom") "k" [("github", "u")] :=
  ⟨by decide,
    c10_unknown_kind_ignored.2.1 (fun _ _ => .error "boom") "k" [("github", "u")]
      "sourceforge" "x" (by decide)⟩

/-! ### Claim ordering -/

theorem pyEq_str (s t : String) : pyEq (.vstr s) (.vstr t) = (s == t) := rfl

theorem pyLt_str_str (s t : String) : pyLt (.vstr s) (.vstr t) = some (decide (s < t)) := rfl

theorem beq_symm {α : Type} [BEq α] [LawfulBEq α] (a b : α) : (a == b) = (b == a) := by
  by_cases h : a = b
  · rw [h]
  · have h1 : (a == b) = false := by
      rw [Bool.eq_false_iff]
      exact fun hb => h (eq_of_beq hb)
    have h2 : (b == a) = false := by
      rw [Bool.eq_false_iff]
      exact fun hb => h (eq_of_beq hb).symm
    rw [h1, h2]

theorem pyEq_symm (x y : Value) : pyEq x y = pyEq y x := by
  cases x <;> cases y <;> simp only [pyEq] <;> exact beq_symm ..

theorem pyEq_num (x y : Value) (m n : Int) (hx : asNum x = some m) (hy : asNum y = some n) :
    pyEq x y = (m == n) := by
  cases x <;> cases y <;> simp_all [asNum, pyEq] <;>
    (rename_i a b; cases a <;> cases b <;> simp_all <;> omega)

theorem asNum_of_pyEq (x y : Value) (h : pyEq x y = true) :
    (x = .vnone ∧ y = .vnone) ∨ (∃ s, x = .vstr s ∧ y = .vstr s) ∨
    (∃ m, asNum x = some m ∧ asNum y = some m) := by
  cases x <;> cases y <;> simp_all [pyEq, asNum]

theorem pyLt_num (x y : Value) (m n : Int) (hx : asNum x = some m) (hy : asNum y = some n) :
    pyLt x y = some (decide (m < n)) := by
  cases x <;> cases y <;> simp_all [asNum, pyLt]

theorem pyLt_shape (x y : Value) (b : Bool) (h : pyLt x y = some b) :
    (∃ s t, x = .vstr s ∧ y = .vstr t) ∨
    (∃ m n, asNum x = some m ∧ asNum y = some n) := by
  cases x <;> cases y <;> simp_all [pyLt, asNum]


theorem pyEq_trans (x y z : Value) (h1 : pyEq x y = true) (h2 : pyEq y z = true) :
    pyEq x z = true := by
  rcases asNum_of_pyEq x y h1 with ⟨hx, hy⟩ | ⟨s, hx, hy⟩ | ⟨m, hx, hy⟩
  · subst hx; subst hy; exact h2
  · subst hx; subst hy; exact h2
  · rcases asNum_of_pyEq y z h2 with ⟨hy2, hz⟩ | ⟨t, hy2, hz⟩ | ⟨n, hy2, hz⟩
    · subst hy2; cases hy
    · subst hy2; cases hy
    · rw [hy] at hy2
      injection hy2 with hmn
      rw [pyEq_num x z m n hx hz]
      rw [hmn]
      simp

theorem pyLt_num_none (x z : Value) (m : Int) (hx : asNum x = some m) (hz : asNum z = none) :
    pyLt x z = none := by
  cases x <;> cases z <;> simp_all [asNum, pyLt]

theorem pyLt_none_num (x z : Value) (m : Int) (hx : asNum x = none) (hz : asNum z = some m)
    (hs : ∀ s t, x = .vstr s → z ≠ .vstr t) : pyLt x z = none := by
  cases x <;> cases z <;> simp_all [asNum, pyLt]

theorem pyLt_congr_left (x y z : Value) (h : pyEq x y = true) : pyLt x z = pyLt y z := by
  rcases asNum_of_pyEq x y h with ⟨hx, hy⟩ | ⟨s, hx, hy⟩ | ⟨m, hx, hy⟩
  · subst hx; subst hy; rfl
  · subst hx; subst hy; rfl
  · cases hz : asNum z with
    | some n => rw [pyLt_num x z m n hx hz, pyLt_num y z m n hy hz]
    | none => rw [pyLt_num_none x z m hx hz, pyLt_num_none y z m hy hz]

theorem pyLt_congr_right (x y z : Value) (h : pyEq x y = true) : pyLt z x = pyLt z y := by
  rcases asNum_of_pyEq x y h with ⟨hx, hy⟩ | ⟨s, hx, hy⟩ | ⟨m, hx, hy⟩
  · subst hx; subst hy; rfl
  · subst hx; subst hy; rfl
  · cases hz : asNum z with
    | some n =>
      rw [pyLt_num z x n m hz hx, pyLt_num z y n m hz hy]
    | none =>
      cases z with
      | vstr t =>
        cases x <;> cases y <;> simp_all [asNum, pyLt]
      | vnone => cases x <;> cases y <;> simp_all [asNum, pyLt]
      | vint k => cases hz
      | vbool b => simp [asNum] at hz

theorem pyLt_asymm (x y : Value) (h : pyLt x y = some true) : pyLt y x = some false := by
  rcases pyLt_shape x y true h with ⟨s, t, hx, hy⟩ | ⟨m, n, hx, hy⟩
  · subst hx; subst hy
    rw [pyLt_str_str] at h
    injection h with hb
    have hlt : s < t := of_decide_eq_true hb
    rw [pyLt_str_str, decide_eq_false (lt_asymm hlt)]
  · rw [pyLt_num x y m n hx hy] at h
    injection h with hb
    have hlt : m < n := of_decide_eq_true hb
    rw [pyLt_num y x n m hy hx, decide_eq_false (by omega)]

theorem pyLt_trans (x y z : Value) (h1 : pyLt x y = some true) (h2 : pyLt y z = some true) :
    pyLt x z = some true := by
  rcases pyLt_shape x y true h1 with ⟨s, t, hx, hy⟩ | ⟨m, n, hx, hy⟩
  · subst hx; subst hy
    rcases pyLt_shape _ z true h2 with ⟨s2, t2, hy2, hz⟩ | ⟨m, n, hy2, hz⟩
    · subst hz
      injection hy2 with he
      subst he
      rw [pyLt_str_str] at h1 h2 ⊢
      injection h1 with hb1
      injection h2 with hb2
      exact congrArg some (decide_eq_true
        (lt_trans (of_decide_eq_true hb1) (of_decide_eq_true hb2)))
    · simp [asNum] at hy2
  · rcases pyLt_shape y z true h2 with ⟨s2, t2, hy2, hz⟩ | ⟨m2, n2, hy2, hz⟩
    · subst hy2; simp [asNum] at hy
    · rw [hy2] at hy
      injection hy with he
      rw [pyLt_num x y m n hx (he ▸ hy2)] at h1
      rw [pyLt_num y z m2 n2 hy2 hz] at h2
      injection h1 with hb1
      injection h2 with hb2
      have l1 : m < n := of_decide_eq_true hb1
      have l2 : m2 < n2 := of_decide_eq_true hb2
      rw [pyLt_num x z m n2 hx hz, decide_eq_true (by omega)]

theorem pyLt_connex (x y : Value) (hne : pyEq x y = false) (h1 : pyLt x y = some false)
    (h2 : pyLt y x = some false) : False := by
  rcases pyLt_shape x y false h1 with ⟨s, t, hx, hy⟩ | ⟨m, n, hx, hy⟩
  · subst hx; subst hy
    rw [pyLt_str_str] at h1 h2
    injection h1 with hb1
    injection h2 with hb2
    have hn1 : ¬ s < t := of_decide_eq_false hb1
    have hn2 : ¬ t < s := of_decide_eq_false hb2
    have hst : s ≠ t := by
      intro hh
      rw [pyEq_str, hh] at hne
      simp at hne
    rcases lt_trichotomy s t with h | h | h
    · exact hn1 h
    · exact hst h
    · exact hn2 h
  · rw [pyLt_num x y m n hx hy] at h1
    rw [pyLt_num y x n m hy hx] at h2
    injection h1 with hb1
    injection h2 with hb2
    have hn1 : ¬ m < n := of_decide_eq_false hb1
    have hn2 : ¬ n < m := of_decide_eq_false hb2
    have : pyEq x y = (m == n) := pyEq_num x y m n hx hy
    rw [this] at hne
    have : m ≠ n := by
      intro hh
      rw [hh] at hne
      simp at hne
    omega

theorem pyListLt_cons (x y : Value) (xs ys : List Value) :
    pyListLt (x :: xs) (y :: ys) = if pyEq x y then pyListLt xs ys else pyLt x y := rfl

theorem pyListLt_irrefl : ∀ l : List Value, pyListLt l l = some false := by
  intro l
  induction l with
  | nil => rfl
  | cons x xs ih => rw [pyListLt_cons, if_pos (pyEq_refl x), ih]

theorem pyListLt_asymm : ∀ l1 l2 : List Value,
    pyListLt l1 l2 = some true → pyListLt l2 l1 = some false := by
  intro l1
  induction l1 with
  | nil =>
    intro l2 h
    cases l2 with
    | nil => simp [pyListLt] at h
    | cons y ys => rfl
  | cons x xs ih =>
    intro l2 h
    cases l2 with
    | nil => simp [pyListLt] at h
    | cons y ys =>
      rw [pyListLt_cons] at h
      rw [pyListLt_cons]
      by_cases he : pyEq x y = true
      · rw [if_pos he] at h
        rw [if_pos ((pyEq_symm y x).trans he)]
        exact ih ys h
      · rw [if_neg he] at h
        rw [if_neg (fun hh => he ((pyEq_symm x y).trans hh))]
        exact pyLt_asymm x y h

theorem pyListLt_trans : ∀ l1 l2 l3 : List Value,
    pyListLt l1 l2 = some true → pyListLt l2 l3 = some true →
    pyListLt l1 l3 = some true := by
  intro l1
  induction l1 with
  | nil =>
    intro l2 l3 h1 h2
    cases l2 with
    | nil => simp [pyListLt] at h1
    | cons y ys =>
      cases l3 with
      | nil => simp [pyListLt] at h2
      | cons z zs => rfl
  | cons x xs ih =>
    intro l2 l3 h1 h2
    cases l2 with
    | nil => simp [pyListLt] at h1
    | cons y ys =>
      cases l3 with
      | nil => simp [pyListLt] at h2
      | cons z zs =>
        rw [pyListLt_cons] at h1 h2 ⊢
        by_cases e1 : pyEq x y = true
        · rw [if_pos e1] at h1
          by_cases e2 : pyEq y z = true
          · rw [if_pos e2] at h2
            rw [if_pos (pyEq_trans x y z e1 e2)]
            exact ih ys zs h1 h2
          · rw [if_neg e2] at h2
            have exz : ¬ pyEq x z = true := by
              intro hxz
              exact e2 (pyEq_trans y x z ((pyEq_symm y x).trans e1) hxz)
            rw [if_neg exz, pyLt_congr_left x y z e1]
            exact h2
        · rw [if_neg e1] at h1
          by_cases e2 : pyEq y z = true
          · have exz : ¬ pyEq x z = true := by
              intro hxz
              exact e1 (pyEq_trans x z y hxz ((pyEq_symm z y).trans e2))
            rw [if_neg exz, ← pyLt_congr_right y z x e2]
            exact h1
          · rw [if_neg e2] at h2
            by_cases exz : pyEq x z = true
            · have hzy := pyLt_asymm y z h2
              rw [pyLt_congr_left x z y exz] at h1
              rw [h1] at hzy
              simp at hzy
            · rw [if_neg exz]
              exact pyLt_trans x y z h1 h2

theorem pyListLt_connex : ∀ l1 l2 : List Value,
    pyListLt l1 l2 = some false → pyListLt l2 l1 = some false →
    pyListEq l1 l2 = true := by
  intro l1
  induction l1 with
  | nil =>
    intro l2 h1 _
    cases l2 with
    | nil => rfl
    | cons y ys => simp [pyListLt] at h1
  | cons x xs ih =>
    intro l2 h1 h2
    cases l2 with
    | nil => simp [pyListLt] at h2
    | cons y ys =>
      rw [pyListLt_cons] at h1 h2
      by_cases he : pyEq x y = true
      · rw [if_pos he] at h1
        rw [if_pos ((pyEq_symm y x).trans he)] at h2
        show (pyEq x y && pyListEq xs ys) = true
        rw [he, ih ys h1 h2]
        rfl
      · rw [if_neg he] at h1
        rw [if_neg (fun hh => he ((pyEq_symm x y).trans hh))] at h2
        exact (pyLt_connex x y (Bool.eq_false_iff.2 he) h1 h2).elim

/-- C6: `Claims.__lt__` is exactly lexicographic comparison of the
`values()` sequences; the key comparison used when sorting Claim Sets by
an attribute agrees with it; on Claims whose comparisons are defined (no
`TypeError`) it is a strict total order (irreflexive, asymmetric,
transitive, and connected up to Python `==` of the value lists); and a
Claim with no values sorts before any Claim with values. -/
theorem c6_claims_ordering :
    (∀ a b : Claims, claimsLt a b = pyListLt a.values b.values) ∧
    (∀ (cd1 cd2 : ClaimsDict) (k : String) (a b : Claims),
      cd1.getItem k = .ok a → cd2.getItem k = .ok b →
      sortKeyLt cd1 cd2 k = pyListLt a.values b.values) ∧
    (∀ a : Claims, claimsLt a a = some false) ∧
    (∀ a b : Claims, claimsLt a b = some true → claimsLt b a = some false) ∧
    (∀ a b c : Claims, claimsLt a b = some true → claimsLt b c = some true →
      claimsLt a c = some true) ∧
    (∀ a b : Claims, claimsLt a b = some false → claimsLt b a = some false →
      pyListEq a.values b.values = true) ∧
    (∀ a b : Claims, a.values = [] → b.values ≠ [] → claimsLt a b = some true) := by
  refine ⟨fun a b => rfl, ?_, ?_, ?_, ?_, ?_, ?_⟩
  · intro cd1 cd2 k a b h1 h2
    unfold sortKeyLt
    rw [h1, h2]
    rfl
  · intro a
    exact pyListLt_irrefl a.values
  · intro a b h
    exact pyListLt_asymm _ _ h
  · intro a b c h1 h2
    exact pyListLt_trans _ _ _ h1 h2
  · intro a b h1 h2
    exact pyListLt_connex _ _ h1 h2
  · intro a b ha hb
    unfold claimsLt
    rw [ha]
    cases hbv : b.values with
    | nil => exact absurd hbv hb
    | cons y ys => rfl

/-- Witness for C6: `commit_count` claims `7 < 12` (asymmetry checked via
the theorem), and the empty Claim sorts before a non-empty one. -/
theorem c6_witness :
    (claimsLt ⟨[(Value.vint 7, ["A"])]⟩ ⟨[(Value.vint 12, ["B"])]⟩ = some true) ∧
    (claimsLt ⟨[(Value.vint 12, ["B"])]⟩ ⟨[(Value.vint 7, ["A"])]⟩ = some false) ∧
    ((⟨[]⟩ : Claims).values = [] ∧ (⟨[(Value.vint 3, ["A"])]⟩ : Claims).values ≠ [] ∧
      claimsLt ⟨[]⟩ ⟨[(Value.vint 3, ["A"])]⟩ = some true) :=
  ⟨by decide,
   c6_claims_ordering.2.2.2.1 _ _ (by decide),
   by decide, by decide,
   c6_claims_ordering.2.2.2.2.2.2 _ _ rfl (by decide)⟩

end ProjectStats
